import Mathlib

/-
Shallow embedding of the RS-screener core (quality_analyzer.py, rs_calculator.py,
screener_engine.py, data_validator.py, config.py).  Machine floats are modelled
as rationals; a pandas NaN or absent value is modelled as Option.none.  Pandas
comparisons involving NaN evaluate to False, which the Option-aware comparison
helpers below reproduce.
-/

/-- The six weighted fundamental metrics (config.QUALITY_WEIGHTS keys, in the
dict iteration order of the source). -/
inductive Metric where
  | roe
  | debt_equity
  | operating_margin
  | current_ratio
  | profit_margin
  | roa
deriving DecidableEq, Repr

/-- A fundamentals table row: symbol, the six metric columns (None = NaN), and
the valid_metric_count column written by DataValidator.validate_fundamentals
(absent before that call). -/
structure FRow where
  symbol : String
  roe : Option ℚ
  debt_equity : Option ℚ
  operating_margin : Option ℚ
  current_ratio : Option ℚ
  profit_margin : Option ℚ
  roa : Option ℚ
  valid_metric_count : Option ℕ := none
deriving DecidableEq, Repr

/-- Column access row[metric]. -/
def getMetric (r : FRow) : Metric → Option ℚ
  | .roe => r.roe
  | .debt_equity => r.debt_equity
  | .operating_margin => r.operating_margin
  | .current_ratio => r.current_ratio
  | .profit_margin => r.profit_margin
  | .roa => r.roa

/-- config.QUALITY_WEIGHTS. -/
def qweight : Metric → ℚ
  | .roe => 0.25
  | .debt_equity => 0.20
  | .operating_margin => 0.20
  | .current_ratio => 0.15
  | .profit_margin => 0.10
  | .roa => 0.10

/-- config.QUALITY_THRESHOLDS, excellent tier. -/
def qexcellent : Metric → ℚ
  | .roe => 20
  | .debt_equity => 0.3
  | .operating_margin => 20
  | .current_ratio => 2.0
  | .profit_margin => 10
  | .roa => 10

/-- config.QUALITY_THRESHOLDS, good tier. -/
def qgood : Metric → ℚ
  | .roe => 15
  | .debt_equity => 0.5
  | .operating_margin => 15
  | .current_ratio => 1.5
  | .profit_margin => 7
  | .roa => 7

/-- config.QUALITY_THRESHOLDS, acceptable tier. -/
def qacceptable : Metric → ℚ
  | .roe => 10
  | .debt_equity => 1.0
  | .operating_margin => 10
  | .current_ratio => 1.0
  | .profit_margin => 5
  | .roa => 5

/-- config.QUALITY_THRESHOLDS, poor tier. -/
def qpoor : Metric → ℚ
  | .roe => 5
  | .debt_equity => 2.0
  | .operating_margin => 5
  | .current_ratio => 0.8
  | .profit_margin => 2
  | .roa => 3

/-- QualityAnalyzer._score_metric: 4-tier threshold ladder; debt_equity uses
value LE threshold (lower is better), every other metric uses value GE
threshold. -/
def scoreMetric (m : Metric) (value : ℚ) : ℚ :=
  match m with
  | .debt_equity =>
      if value ≤ qexcellent .debt_equity then 1
      else if value ≤ qgood .debt_equity then 0.75
      else if value ≤ qacceptable .debt_equity then 0.50
      else if value ≤ qpoor .debt_equity then 0.25
      else 0
  | m =>
      if qexcellent m ≤ value then 1
      else if qgood m ≤ value then 0.75
      else if qacceptable m ≤ value then 0.50
      else if qpoor m ≤ value then 0.25
      else 0

/-- One loop iteration of QualityAnalyzer._calc_quality_score: a present metric
contributes weight times its ladder sub-score; a missing (NaN) metric
contributes weight times 50 (the literal 50 of the source, not 0.5). -/
def qcontrib (r : FRow) (m : Metric) : ℚ :=
  match getMetric r m with
  | some v => qweight m * scoreMetric m v
  | none => qweight m * 50

/-- QualityAnalyzer._calc_quality_score: sum the six contributions in the
QUALITY_WEIGHTS iteration order, then min(score * 100, 100). -/
def calcQualityScore (r : FRow) : ℚ :=
  min ((qcontrib r .roe + qcontrib r .debt_equity + qcontrib r .operating_margin
        + qcontrib r .current_ratio + qcontrib r .profit_margin + qcontrib r .roa) * 100) 100

/-- config.SIGNAL_THRESHOLDS BUY composite_min. -/
def buyCompositeMin : ℚ := 75
/-- config.SIGNAL_THRESHOLDS BUY rs_min. -/
def buyRsMin : ℚ := 85
/-- config.SIGNAL_THRESHOLDS STRONG_WATCH composite_min. -/
def strongWatchCompositeMin : ℚ := 70
/-- config.SIGNAL_THRESHOLDS WATCH composite_min. -/
def watchCompositeMin : ℚ := 60

/-- ScreenerEngine._generate_signal, as a function of the two row columns it
reads (composite_score and rs_percentile). -/
def generateSignal (composite rs : ℚ) : String :=
  if buyCompositeMin ≤ composite ∧ buyRsMin ≤ rs then "BUY"
  else if strongWatchCompositeMin ≤ composite then "STRONG_WATCH"
  else if watchCompositeMin ≤ composite then "WATCH"
  else "AVOID"

/-- A fundamentals row whose six metric values are all NaN. -/
def rowAllMissing : FRow :=
  { symbol := "M", roe := none, debt_equity := none, operating_margin := none,
    current_ratio := none, profit_margin := none, roa := none }

/-- A row whose metrics are all present and in the worst ladder tier
(sub-score 0), except that roe is missing. -/
def rowBadRoeMissing : FRow :=
  { symbol := "B", roe := none, debt_equity := some 100, operating_margin := some (-10),
    current_ratio := some 0, profit_margin := some (-10), roa := some (-10) }

/-- The same row with roe present at the excellent tier (sub-score 1). -/
def rowBadRoeExcellent : FRow :=
  { rowBadRoeMissing with symbol := "P", roe := some 25 }

/-- config.RS_CONFIG lookback_period. -/
def lookbackPeriod : ℕ := 252
/-- config.RS_CONFIG skip_recent_days. -/
def skipRecentDays : ℕ := 21
/-- config.RS_CONFIG trend_strength_period. -/
def trendStrengthPeriod : ℕ := 126

/-- Dictionary lookup price_data[symbol]; the outer none models an absent key,
an inner none models a None frame.  Python dict keys are unique, so the first
binding wins.  Only the Close column is modelled: the functions under study
read no other column. -/
def findDf : List (String × Option (List ℚ)) → String → Option (Option (List ℚ))
  | [], _ => none
  | (s, d) :: rest, sym => if s = sym then some d else findDf rest sym

/-- RSCalculator._calc_period_return on one close series.  The negative-index
iloc accesses of the source resolve to length + index; a resolved position
below zero models the pandas IndexError that the bare except turns into None.
The float NaN guards of the source have no rational counterpart. -/
def periodReturn (closes : List ℚ) (period skip : ℕ) : Option ℚ :=
  if closes.length < period + skip then none
  else
    let endIdx : ℤ := -1 - skip
    let startIdx : ℤ := endIdx - period
    let startPos : ℤ := closes.length + startIdx
    let endPos : ℤ := closes.length + endIdx
    if startPos < 0 then none
    else
      match closes[startPos.toNat]?, closes[endPos.toNat]? with
      | some startPrice, some endPrice =>
          if startPrice = 0 then none else some ((endPrice / startPrice - 1) * 100)
      | _, _ => none

/-- RSCalculator._calc_period_return at the price_data level: a symbol that is
absent or mapped to a None frame yields None. -/
def periodReturnOf (pd : List (String × Option (List ℚ))) (sym : String)
    (period skip : ℕ) : Option ℚ :=
  match findDf pd sym with
  | some (some df) => periodReturn df period skip
  | _ => none

/-- The keys of self.returns: symbols whose frame is present and non-empty
(RSCalculator._calculate_all_returns). -/
def returnsKeys (pd : List (String × Option (List ℚ))) : List String :=
  pd.filterMap fun e =>
    match e.2 with
    | some df => if df.isEmpty then none else some e.1
    | none => none

/-- The valid lookback returns of the universe: the all_returns comprehension
of RSCalculator._calc_rs_percentile after dropping None entries (a NaN entry
cannot arise over the rationals). -/
def validReturns (pd : List (String × Option (List ℚ))) : List ℚ :=
  (returnsKeys pd).filterMap fun s => periodReturnOf pd s lookbackPeriod skipRecentDays

/-- RSCalculator._calc_rs_percentile: 0 when the symbol has no valid return,
50 when the comparison set is empty, otherwise the share of valid returns
strictly below the own return of the symbol, times 100. -/
def calcRsPercentile (pd : List (String × Option (List ℚ))) (sym : String) : ℚ :=
  match periodReturnOf pd sym lookbackPeriod skipRecentDays with
  | none => 0
  | some stockReturn =>
      let allReturns := validReturns pd
      if allReturns.isEmpty then 50
      else ((allReturns.countP fun r => decide (r < stockReturn) : ℕ) : ℚ)
            / allReturns.length * 100

/-- Sum of the time indices 0..n-1 of the regression in
RSCalculator._calc_trend_strength (np.arange of the source). -/
def tsSx (prices : List ℚ) : ℚ := ∑ i ∈ Finset.range prices.length, (i : ℚ)

/-- Sum of the fitted prices. -/
def tsSy (prices : List ℚ) : ℚ := ∑ i ∈ Finset.range prices.length, prices.getD i 0

/-- Sum of squared time indices. -/
def tsSxx (prices : List ℚ) : ℚ := ∑ i ∈ Finset.range prices.length, ((i : ℚ)) ^ 2

/-- Sum of index-price products. -/
def tsSxy (prices : List ℚ) : ℚ :=
  ∑ i ∈ Finset.range prices.length, (i : ℚ) * prices.getD i 0

/-- Determinant of the degree-1 least squares normal equations. -/
def tsDen (prices : List ℚ) : ℚ := prices.length * tsSxx prices - tsSx prices ^ 2

/-- Slope returned by np.polyfit(time_idx, prices, 1), written as the closed
least squares solution. -/
def tsSlope (prices : List ℚ) : ℚ :=
  (prices.length * tsSxy prices - tsSx prices * tsSy prices) / tsDen prices

/-- Intercept returned by np.polyfit(time_idx, prices, 1). -/
def tsIntercept (prices : List ℚ) : ℚ :=
  (tsSy prices - tsSlope prices * tsSx prices) / prices.length

/-- ss_res of the source: squared residuals against np.polyval of the fit. -/
def tsSsRes (prices : List ℚ) : ℚ :=
  ∑ i ∈ Finset.range prices.length,
    (prices.getD i 0 - (tsSlope prices * i + tsIntercept prices)) ^ 2

/-- ss_tot of the source: squared deviations from the mean price. -/
def tsSsTot (prices : List ℚ) : ℚ :=
  ∑ i ∈ Finset.range prices.length,
    (prices.getD i 0 - tsSy prices / prices.length) ^ 2

/-- r_squared of the source, with the zero-total-variance fallback. -/
def tsR2 (prices : List ℚ) : ℚ :=
  if 0 < tsSsTot prices then 1 - tsSsRes prices / tsSsTot prices else 0

/-- RSCalculator._calc_trend_strength on one close series: 0 when fewer than
trend_strength_period observations exist, else r_squared times 100 over the
most recent trend_strength_period closes.  The tsDen = 0 branch mirrors the
try/except fallback around np.polyfit (dead for two or more distinct time
indices, where tsDen is positive). -/
def trendStrength (closes : List ℚ) : ℚ :=
  if closes.length < trendStrengthPeriod then 0
  else
    let prices := closes.drop (closes.length - trendStrengthPeriod)
    if tsDen prices = 0 then 0 else tsR2 prices * 100

/-- The claim C4 scenario: 252 closes rising linearly from 100 to 200. -/
def linear252 : List ℚ := (List.range 252).map fun i : ℕ => 100 + 100 * (i : ℚ) / 251

/-- Truthiness of an optional numeric parameter, as Python evaluates it: an
absent key (none) and a zero value are falsy, every other number is truthy. -/
def truthy : Option ℚ → Bool
  | none => false
  | some x => decide (x ≠ 0)

/-- The params mapping consumed by ScreenerEngine.apply_filters.  The source
reads rs_threshold with mandatory indexing; the four optional entries are read
through params.get, so none models an absent key (or a Python None value). -/
structure Params where
  rs_threshold : ℚ
  min_roe : Option ℚ := none
  max_de : Option ℚ := none
  min_margin : Option ℚ := none
  min_mcap : Option ℚ := none
deriving Repr

/-- A row of the joined screening table, restricted to the columns
apply_filters reads; none models NaN. -/
structure SRow where
  rs_percentile : Option ℚ
  roe : Option ℚ
  debt_equity : Option ℚ
  operating_margin : Option ℚ
  market_cap : Option ℚ
  current_price : Option ℚ
deriving DecidableEq, Repr

/-- A pandas greater-or-equal comparison against a scalar: NaN compares
False. -/
def cmpGE (v : Option ℚ) (t : ℚ) : Bool :=
  match v with
  | some x => decide (t ≤ x)
  | none => false

/-- A pandas less-or-equal comparison against a scalar: NaN compares False. -/
def cmpLe (v : Option ℚ) (t : ℚ) : Bool :=
  match v with
  | some x => decide (x ≤ t)
  | none => false

/-- ScreenerEngine.apply_filters.  The Except.error value models an uncaught
exception escaping the call: the source tests params.get(min_mcap, 5000) for
truthiness but then reads params[min_mcap] with mandatory indexing, so a
params mapping without a min_mcap key raises KeyError inside the branch that
the 5000 default just made reachable. -/
def applyFilters (p : Params) (rows : List SRow) : Except String (List SRow) :=
  let r1 := rows.filter fun r => cmpGE r.rs_percentile p.rs_threshold
  let r2 := if truthy p.min_roe then
      r1.filter fun r => cmpGE r.roe (p.min_roe.getD 0) || r.roe.isNone
    else r1
  let r3 := if truthy p.max_de then
      r2.filter fun r => cmpLe r.debt_equity (p.max_de.getD 0) || r.debt_equity.isNone
    else r2
  let r4 := if truthy p.min_margin then
      r3.filter fun r => cmpGE r.operating_margin (p.min_margin.getD 0) || r.operating_margin.isNone
    else r3
  let r5 : Except String (List SRow) :=
    if truthy (some (p.min_mcap.getD 5000)) then
      match p.min_mcap with
      | none => Except.error "KeyError: min_mcap"
      | some m => Except.ok (r4.filter fun r => cmpGE r.market_cap m)
    else Except.ok r4
  r5.map fun rs => rs.filter fun r => r.current_price.isSome && r.rs_percentile.isSome

/-- The metric-specific sane range of DataValidator.validate_fundamentals
(closed bounds, as in count_valid_metrics; the issue loop tests the strict
complement of the same bounds). -/
def fieldInRange (m : Metric) (v : ℚ) : Bool :=
  match m with
  | .roe => decide (-100 ≤ v ∧ v ≤ 200)
  | .debt_equity => decide (0 ≤ v ∧ v ≤ 10)
  | .operating_margin => decide (-50 ≤ v ∧ v ≤ 100)
  | .current_ratio => decide (0 ≤ v ∧ v ≤ 20)
  | .profit_margin => decide (-50 ≤ v ∧ v ≤ 100)
  | .roa => decide (-50 ≤ v ∧ v ≤ 100)

/-- required_fields of validate_fundamentals, in source order. -/
def requiredFields : List Metric :=
  [.roe, .debt_equity, .operating_margin, .current_ratio, .profit_margin, .roa]

/-- The missing (absent or NaN) required fields of a row, in source order. -/
def missingFields (r : FRow) : List Metric :=
  requiredFields.filter fun m => (getMetric r m).isNone

/-- The present required fields whose value violates the sane range, in
source order. -/
def invalidFields (r : FRow) : List Metric :=
  requiredFields.filter fun m =>
    match getMetric r m with
    | some v => !(fieldInRange m v)
    | none => false

/-- count_valid_metrics of validate_fundamentals: the number of required
fields that are present and in range. -/
def countValidMetrics (r : FRow) : ℕ :=
  (requiredFields.filter fun m =>
    match getMetric r m with
    | some v => fieldInRange m v
    | none => false).length

/-- issues_by_stock of validate_fundamentals: one entry per row with any
missing or invalid field, recording the itemized field names.  The value
formatting of the source strings is elided; the source keys a dict by symbol,
modelled as an association list. -/
def issuesByStock (rows : List FRow) : List (String × List Metric × List Metric) :=
  rows.filterMap fun r =>
    if missingFields r = [] ∧ invalidFields r = [] then none
    else some (r.symbol, missingFields r, invalidFields r)

/-- The in-place write of the valid_metric_count column on one row. -/
def setCount (r : FRow) : FRow :=
  { r with valid_metric_count := some (countValidMetrics r) }

/-- Dropping the valid_metric_count column of a row. -/
def eraseCount (r : FRow) : FRow :=
  { r with valid_metric_count := none }

/-- DataValidator.validate_fundamentals.  The first component is the state of
the fundamentals table of the caller after the call: the source assigns the
valid_metric_count column on the passed dataframe itself before filtering, so
the input argument object is mutated.  The second and third components are
the returned (valid_df, issues_by_stock) pair. -/
def validateFundamentals (rows : List FRow) :
    List FRow × List FRow × List (String × List Metric × List Metric) :=
  let mutated := rows.map setCount
  let valid := mutated.filter fun r => decide (4 ≤ r.valid_metric_count.getD 0)
  (mutated, valid, issuesByStock rows)

/-- A params mapping with min_roe present but zero (falsy) and the other
filters disabled or satisfied. -/
def paramsFalsyRoe : Params :=
  { rs_threshold := 80, min_roe := some 0, max_de := none, min_margin := none,
    min_mcap := some 5000 }

/-- A screening row with a present, negative roe that passes every active
filter. -/
def rowNegRoe : SRow :=
  { rs_percentile := some 90, roe := some (-5), debt_equity := none,
    operating_margin := none, market_cap := some 10000, current_price := some 100 }

/-- Claim C1 (code slip): the source imputes a missing metric as weight * 50
while present metrics contribute weight * subscore with subscore in [0,1] and
the total is min(score * 100, 100).  Hence a row with all six metrics missing
scores 100 (not the neutral 50 of the spec), and a missing roe scores strictly
more than a perfect roe on an otherwise terrible row (100 versus 25). -/
theorem calcQualityScore_missing_inflates :
    calcQualityScore rowAllMissing = 100 ∧
    calcQualityScore rowBadRoeMissing = 100 ∧
    calcQualityScore rowBadRoeExcellent = 25 := by
  refine ⟨?_, ?_, ?_⟩ <;>
    · simp only [calcQualityScore, qcontrib, getMetric, qweight, scoreMetric,
        rowAllMissing, rowBadRoeMissing, rowBadRoeExcellent,
        qexcellent, qgood, qacceptable, qpoor]
      norm_num

/-- Claim C2: the signal is BUY exactly when composite_score at least 75 and
rs_percentile at least 85 jointly hold; otherwise STRONG_WATCH when
composite_score at least 70, otherwise WATCH when at least 60, otherwise
AVOID, in that priority order; and the boundary row (75, 84.9) is
STRONG_WATCH. -/
theorem generateSignal_spec : ∀ composite rs : ℚ,
    (generateSignal composite rs = "BUY" ↔ 75 ≤ composite ∧ 85 ≤ rs) ∧
    (generateSignal composite rs = "STRONG_WATCH" ↔
      ¬(75 ≤ composite ∧ 85 ≤ rs) ∧ 70 ≤ composite) ∧
    (generateSignal composite rs = "WATCH" ↔
      ¬(75 ≤ composite ∧ 85 ≤ rs) ∧ composite < 70 ∧ 60 ≤ composite) ∧
    (generateSignal composite rs = "AVOID" ↔
      ¬(75 ≤ composite ∧ 85 ≤ rs) ∧ composite < 60) ∧
    generateSignal 75 (849/10) = "STRONG_WATCH" := by
  intro composite rs
  have hb : generateSignal 75 (849/10 : ℚ) = "STRONG_WATCH" := by
    norm_num [generateSignal, buyCompositeMin, buyRsMin, strongWatchCompositeMin]
  refine ⟨?_, ?_, ?_, ?_, hb⟩ <;>
    · unfold generateSignal buyCompositeMin buyRsMin strongWatchCompositeMin watchCompositeMin
      split_ifs with h1 h2 h3 <;> simp_all <;> (try linarith)

/-- Reading an element of a dropped list reads the shifted position of the
original list. -/
theorem getD_drop_eq (l : List ℚ) (k : ℕ) : ∀ i : ℕ, (l.drop k).getD i 0 = l.getD (k + i) 0 := by
  induction l generalizing k with
  | nil => intro i; simp
  | cons x xs ih =>
    intro i
    cases k with
    | zero => simp
    | succ k =>
      rw [List.drop_succ_cons, ih k i, Nat.succ_add]
      exact (List.getD_cons_succ).symm

/-- Pointwise value of the linear price series. -/
theorem linear252_getD (j : ℕ) (h : j < 252) :
    linear252.getD j 0 = 100 + 100 * j / 251 := by
  unfold linear252
  rw [List.getD_eq_getD_get?, List.get?_eq_getElem?, List.getElem?_map, List.getElem?_range h]
  rfl

/-- A degree-1 least squares fit of exactly affine data has zero residual and
positive total variance, so the r_squared of the source is exactly 1. -/
theorem tsR2_affine (prices : List ℚ) (a b : ℚ) (hb : b ≠ 0) (h2 : 2 ≤ prices.length)
    (hp : ∀ i, i < prices.length → prices.getD i 0 = a + b * i) :
    tsDen prices ≠ 0 ∧ tsR2 prices = 1 := by
  set n := prices.length with hn
  have hn0 : (n : ℚ) ≠ 0 := Nat.cast_ne_zero.mpr (by omega)
  set m : ℚ := tsSx prices / n with hm
  have hSy : tsSy prices = n * a + b * tsSx prices := by
    unfold tsSy tsSx
    rw [Finset.sum_congr rfl fun i hi => hp i (Finset.mem_range.mp hi)]
    rw [Finset.sum_add_distrib, Finset.sum_const, Finset.card_range, ← Finset.mul_sum,
      nsmul_eq_mul]
  have hSxy : tsSxy prices = a * tsSx prices + b * tsSxx prices := by
    unfold tsSxy tsSx tsSxx
    rw [Finset.sum_congr rfl fun i hi => by rw [hp i (Finset.mem_range.mp hi)]]
    have expand : ∀ i : ℕ, (i : ℚ) * (a + b * i) = a * i + b * (i : ℚ) ^ 2 := fun i => by ring
    rw [Finset.sum_congr rfl fun i _ => expand i]
    rw [Finset.sum_add_distrib, ← Finset.mul_sum, ← Finset.mul_sum]
  have hsum : ∑ i ∈ Finset.range n, ((i : ℚ) - m) ^ 2
      = tsSxx prices - 2 * m * tsSx prices + n * m ^ 2 := by
    unfold tsSxx tsSx
    have expand : ∀ i : ℕ, ((i : ℚ) - m) ^ 2 = (i : ℚ) ^ 2 - 2 * m * i + m ^ 2 := fun i => by
      ring
    rw [Finset.sum_congr rfl fun i _ => expand i]
    rw [Finset.sum_add_distrib, Finset.sum_sub_distrib, ← Finset.mul_sum, Finset.sum_const,
      Finset.card_range, nsmul_eq_mul]
  have hkey : (n : ℚ) * ∑ i ∈ Finset.range n, ((i : ℚ) - m) ^ 2 = tsDen prices := by
    rw [hsum, hm]
    unfold tsDen
    field_simp
    ring
  have hSpos : 0 < ∑ i ∈ Finset.range n, ((i : ℚ) - m) ^ 2 := by
    apply Finset.sum_pos' (fun i _ => sq_nonneg _)
    by_cases hm0 : m = 0
    · exact ⟨1, Finset.mem_range.mpr (by omega), by rw [hm0]; norm_num⟩
    · refine ⟨0, Finset.mem_range.mpr (by omega), ?_⟩
      have : ((0 : ℕ) : ℚ) - m = -m := by push_cast; ring
      rw [this]
      exact sq_pos_of_ne_zero (neg_ne_zero.mpr hm0)
  have hden : 0 < tsDen prices := by
    rw [← hkey]
    exact mul_pos (by positivity) hSpos
  have hdenne : tsDen prices ≠ 0 := ne_of_gt hden
  have hslope : tsSlope prices = b := by
    unfold tsSlope
    rw [hSxy, hSy]
    have : (n : ℚ) * (a * tsSx prices + b * tsSxx prices)
        - tsSx prices * (n * a + b * tsSx prices) = b * tsDen prices := by
      unfold tsDen
      ring
    rw [this, mul_div_assoc, div_self hdenne, mul_one]
  have hint : tsIntercept prices = a := by
    unfold tsIntercept
    rw [hslope, hSy]
    field_simp
  have hres : tsSsRes prices = 0 := by
    unfold tsSsRes
    apply Finset.sum_eq_zero
    intro i hi
    rw [hp i (Finset.mem_range.mp hi), hslope, hint]
    ring
  have htot : tsSsTot prices = b ^ 2 * ∑ i ∈ Finset.range n, ((i : ℚ) - m) ^ 2 := by
    unfold tsSsTot
    rw [← hn, Finset.mul_sum]
    apply Finset.sum_congr rfl
    intro i hi
    rw [hp i (Finset.mem_range.mp hi), hSy]
    have hterm : a + b * i - ((n : ℚ) * a + b * tsSx prices) / n = b * ((i : ℚ) - m) := by
      rw [hm]
      field_simp
      ring
    rw [hterm]
    ring
  have htotpos : 0 < tsSsTot prices := by
    rw [htot]
    exact mul_pos (sq_pos_of_ne_zero hb) hSpos
  refine ⟨hdenne, ?_⟩
  unfold tsR2
  rw [if_pos htotpos, hres, zero_div, sub_zero]

/-- Claim C4 (code slip): on the spec scenario of exactly 252 closes rising
linearly from 100 to 200 with skip_recent = 0, the 252-bar period return is
None, not 100: the length guard accepts length = period + skip_recent, but the
start access then resolves to position -1, and the bare except turns the
IndexError into None.  The trend strength of the same series is exactly 100
(perfect linear fit), as the claim states. -/
theorem periodReturn_linear252_none :
    periodReturn linear252 252 0 = none ∧ trendStrength linear252 = 100 := by
  have hlen : linear252.length = 252 := by simp [linear252]
  constructor
  · simp only [periodReturn, hlen]
    norm_num
  · have h1 : ¬ (linear252.length < trendStrengthPeriod) := by
      rw [hlen]
      norm_num [trendStrengthPeriod]
    have hdrop : linear252.length - trendStrengthPeriod = 126 := by
      rw [hlen]
      norm_num [trendStrengthPeriod]
    unfold trendStrength
    rw [if_neg h1]
    simp only [hdrop]
    have hget : ∀ i, i < (linear252.drop 126).length →
        (linear252.drop 126).getD i 0 = 37700 / 251 + 100 / 251 * i := by
      intro i hi
      rw [getD_drop_eq]
      have h126 : 126 + i < 252 := by
        simp only [List.length_drop, hlen] at hi
        omega
      rw [linear252_getD (126 + i) h126]
      push_cast
      ring
    obtain ⟨hden, hr2⟩ := tsR2_affine (linear252.drop 126) (37700 / 251) (100 / 251)
      (by norm_num) (by simp [List.length_drop, hlen]) hget
    rw [if_neg hden, hr2, one_mul]

/-- A series that yields a period return is non-empty. -/
theorem periodReturn_some_ne_nil {df : List ℚ} {p k : ℕ} {x : ℚ}
    (h : periodReturn df p k = some x) : df ≠ [] := by
  intro hnil
  subst hnil
  simp only [periodReturn, List.length_nil] at h
  rcases Nat.eq_zero_or_pos (p + k) with h0 | h0
  · rw [if_neg (by omega)] at h
    rw [if_pos (by omega)] at h
    exact Option.noConfusion h
  · rw [if_pos (by omega)] at h
    exact Option.noConfusion h

/-- A symbol with a valid period return is a key of the returns map. -/
theorem mem_returnsKeys_of_some {pd : List (String × Option (List ℚ))} {sym : String}
    {p k : ℕ} {x : ℚ} (h : periodReturnOf pd sym p k = some x) :
    sym ∈ returnsKeys pd := by
  induction pd with
  | nil => simp [periodReturnOf, findDf] at h
  | cons e rest ih =>
    obtain ⟨s, d⟩ := e
    by_cases hs : s = sym
    · subst hs
      unfold periodReturnOf findDf at h
      rw [if_pos rfl] at h
      cases d with
      | none => exact Option.noConfusion h
      | some df =>
        have hne : df ≠ [] := periodReturn_some_ne_nil h
        unfold returnsKeys
        rw [List.filterMap_cons]
        simp only [List.isEmpty_iff, hne, if_neg]
        exact List.mem_cons_self _ _
    · unfold periodReturnOf findDf at h
      rw [if_neg hs] at h
      have hrest : sym ∈ returnsKeys rest := ih (by unfold periodReturnOf; exact h)
      unfold returnsKeys
      rw [List.filterMap_cons]
      split
      · exact hrest
      · exact List.mem_cons_of_mem _ hrest

/-- The own valid lookback return of a symbol is one of the valid returns of the
universe. -/
theorem mem_validReturns {pd : List (String × Option (List ℚ))} {sym : String} {x : ℚ}
    (h : periodReturnOf pd sym lookbackPeriod skipRecentDays = some x) :
    x ∈ validReturns pd := by
  unfold validReturns
  exact List.mem_filterMap.mpr ⟨sym, mem_returnsKeys_of_some h, h⟩

/-- Claim C3: whenever a symbol has a valid lookback return, its rs_percentile
equals 100 times the share of valid universe returns strictly below its own,
lies in [0, 100], coincides with the percentile of any symbol with the same
return, and equals 100 * (N - 1) / N for the symbol holding the unique
maximum of the N valid returns. -/
theorem calcRsPercentile_spec (pd : List (String × Option (List ℚ))) (sym : String) (x : ℚ)
    (h : periodReturnOf pd sym lookbackPeriod skipRecentDays = some x) :
    calcRsPercentile pd sym
        = (((validReturns pd).countP fun r => decide (r < x) : ℕ) : ℚ)
          / ((validReturns pd).length : ℚ) * 100 ∧
    0 ≤ calcRsPercentile pd sym ∧
    calcRsPercentile pd sym ≤ 100 ∧
    (∀ s2, periodReturnOf pd s2 lookbackPeriod skipRecentDays = some x →
      calcRsPercentile pd s2 = calcRsPercentile pd sym) ∧
    ((∀ y ∈ validReturns pd, y ≤ x) →
      (validReturns pd).countP (fun r => decide (r = x)) = 1 →
      calcRsPercentile pd sym
        = 100 * (((validReturns pd).length - 1 : ℕ) : ℚ) / ((validReturns pd).length : ℚ)) := by
  have hmem : x ∈ validReturns pd := mem_validReturns h
  have hne : validReturns pd ≠ [] := List.ne_nil_of_mem hmem
  have hlen0 : 0 < (validReturns pd).length := List.length_pos_of_mem hmem
  have hlenQ : (0 : ℚ) < ((validReturns pd).length : ℚ) := by exact_mod_cast hlen0
  have hform : calcRsPercentile pd sym
      = (((validReturns pd).countP fun r => decide (r < x) : ℕ) : ℚ)
        / ((validReturns pd).length : ℚ) * 100 := by
    simp only [calcRsPercentile, h]
    rw [if_neg (by simp [List.isEmpty_iff, hne])]
  refine ⟨hform, ?_, ?_, ?_, ?_⟩
  · rw [hform]
    positivity
  · rw [hform]
    have hc : ((validReturns pd).countP fun r => decide (r < x)) ≤ (validReturns pd).length :=
      List.countP_le_length _
    have hcQ : (((validReturns pd).countP fun r => decide (r < x) : ℕ) : ℚ)
        ≤ ((validReturns pd).length : ℚ) := by exact_mod_cast hc
    rw [div_mul_eq_mul_div, div_le_iff₀ hlenQ]
    nlinarith [hcQ, hlenQ]
  · intro s2 h2
    simp only [calcRsPercentile, h, h2]
  · intro hmax hone
    have hcount : ((validReturns pd).countP fun r => decide (r < x))
        = (validReturns pd).length - 1 := by
      have hsplit := List.length_eq_countP_add_countP
        (p := fun r => decide (r < x)) (validReturns pd)
      have hcongr : (validReturns pd).countP (fun a => decide (x ≤ a))
          = (validReturns pd).countP (fun r => decide (r = x)) := by
        apply List.countP_congr
        intro y hy
        have hyx : y ≤ x := hmax y hy
        simp only [decide_eq_true_eq]
        constructor
        · intro hge
          exact le_antisymm hyx hge
        · intro heq
          exact le_of_eq heq.symm
      have hsplit2 : (validReturns pd).length
          = ((validReturns pd).countP fun r => decide (r < x))
            + (validReturns pd).countP (fun a => decide (x ≤ a)) := by
        simpa using hsplit
      omega
    rw [hform, hcount]
    ring

set_option maxRecDepth 4000 in
/-- Claim C3 witness: a one-symbol universe of 274 constant closes has a valid
zero return, and its percentile is within the stated bounds. -/
theorem calcRsPercentile_spec_witness :
    0 ≤ calcRsPercentile [("A", some (List.replicate 274 (1 : ℚ)))] "A" ∧
    calcRsPercentile [("A", some (List.replicate 274 (1 : ℚ)))] "A" ≤ 100 := by
  have h : periodReturnOf [("A", some (List.replicate 274 (1 : ℚ)))] "A"
      lookbackPeriod skipRecentDays = some 0 := by
    have hlen : (List.replicate 274 (1 : ℚ)).length = 274 := List.length_replicate _ _
    unfold periodReturnOf findDf
    rw [if_pos rfl]
    show periodReturn (List.replicate 274 (1 : ℚ)) lookbackPeriod skipRecentDays = some 0
    unfold periodReturn
    rw [hlen]
    norm_num [lookbackPeriod, skipRecentDays, List.getElem?_replicate]
  exact ⟨(calcRsPercentile_spec _ "A" 0 h).2.1, (calcRsPercentile_spec _ "A" 0 h).2.2.1⟩

/-- Claim C6 counterexample: in a universe whose only symbol has no price
frame there are no valid returns, yet rs_percentile of that symbol is 0, not
the neutral 50 the claim states: the own-return guard returns 0 before the
empty-comparison-set branch can return 50. -/
theorem calcRsPercentile_empty_universe_cex :
    validReturns [("A", (none : Option (List ℚ)))] = [] ∧
    calcRsPercentile [("A", (none : Option (List ℚ)))] "A" ≠ 50 ∧
    calcRsPercentile [("A", (none : Option (List ℚ)))] "A" = 0 := by
  refine ⟨rfl, ?_, rfl⟩
  show (0 : ℚ) ≠ 50
  norm_num

/-- Claim C6 amended: if no symbol in the universe has a valid lookback
return, rs_percentile returns 0 for every symbol (the 50 branch needs a valid
own return together with an empty comparison set, which cannot happen since
the own return always belongs to the comparison set). -/
theorem calcRsPercentile_empty_universe (pd : List (String × Option (List ℚ)))
    (sym : String) (h : validReturns pd = []) : calcRsPercentile pd sym = 0 := by
  cases hx : periodReturnOf pd sym lookbackPeriod skipRecentDays with
  | none => simp [calcRsPercentile, hx]
  | some x => exact absurd (mem_validReturns hx) (by simp [h])

/-- Claim C6 amended witness. -/
theorem calcRsPercentile_empty_universe_witness :
    calcRsPercentile [("B", (none : Option (List ℚ)))] "B" = 0 :=
  calcRsPercentile_empty_universe _ "B" rfl

/-- Claim C5 (code slip): apply_filters does not return normally for every
params mapping: when min_mcap is absent, the truthiness test uses the default
5000 and the guarded branch then reads params[min_mcap] with mandatory
indexing, raising KeyError and aborting the batch; with min_mcap present the
same call returns normally. -/
theorem applyFilters_min_mcap_keyerror :
    applyFilters { rs_threshold := 80 } [] = Except.error "KeyError: min_mcap" ∧
    applyFilters { rs_threshold := 80, min_mcap := some 5000 } [] = Except.ok [] := by
  constructor
  · norm_num [applyFilters, truthy, Except.map]
  · norm_num [applyFilters, truthy, Except.map]

/-- Claim C10: each fundamentals filter runs only when its parameter is
truthy; with min_roe absent or zero no ROE condition is applied, so a row
with a present negative roe that satisfies the remaining filters passes the
filter stage. -/
theorem applyFilters_no_roe_filter (p : Params) (r : SRow) (v : ℚ)
    (hmin : p.min_roe = none ∨ p.min_roe = some 0)
    (hroe : r.roe = some v) (hv : v < 0)
    (hrs : cmpGE r.rs_percentile p.rs_threshold = true)
    (hde : truthy p.max_de = true →
      (cmpLe r.debt_equity (p.max_de.getD 0) || r.debt_equity.isNone) = true)
    (hom : truthy p.min_margin = true →
      (cmpGE r.operating_margin (p.min_margin.getD 0) || r.operating_margin.isNone) = true)
    (hmcap : ∀ m, p.min_mcap = some m → m ≠ 0 → cmpGE r.market_cap m = true)
    (hmc : p.min_mcap ≠ none)
    (hcp : r.current_price.isSome = true) (hrsp : r.rs_percentile.isSome = true) :
    applyFilters p [r] = Except.ok [r] := by
  obtain ⟨m, hm⟩ : ∃ m, p.min_mcap = some m := by
    cases hmm2 : p.min_mcap with
    | none => exact absurd hmm2 hmc
    | some m => exact ⟨m, rfl⟩
  have htr : truthy p.min_roe = false := by
    rcases hmin with h0 | h0 <;> simp [truthy, h0]
  have h5000 : p.min_mcap.getD 5000 = m := by rw [hm]; rfl
  by_cases hm0 : m = 0
  · have htm : truthy (some m) = false := by simp [truthy, hm0]
    by_cases hd : truthy p.max_de <;> by_cases ho : truthy p.min_margin <;>
      simp [applyFilters, htr, hd, ho, hm, h5000, htm, hrs, hcp, hrsp, hde, hom, Except.map]
  · have htm : truthy (some m) = true := by simp [truthy, hm0]
    by_cases hd : truthy p.max_de <;> by_cases ho : truthy p.min_margin <;>
      simp [applyFilters, htr, hd, ho, hm, h5000, htm, hrs, hcp, hrsp, hde, hom,
        hmcap m hm hm0, Except.map]

/-- Claim C10 witness: the falsy-roe params and the negative-roe row. -/
theorem applyFilters_no_roe_filter_witness :
    applyFilters paramsFalsyRoe [rowNegRoe] = Except.ok [rowNegRoe] := by
  apply applyFilters_no_roe_filter paramsFalsyRoe rowNegRoe (-5)
  · exact Or.inr rfl
  · rfl
  · norm_num
  · norm_num [rowNegRoe, paramsFalsyRoe, cmpGE]
  · intro h
    exact absurd h (by simp [truthy, paramsFalsyRoe])
  · intro h
    exact absurd h (by simp [truthy, paramsFalsyRoe])
  · intro m hm hm0
    have hm5 : m = 5000 := by
      injection hm with h5
      exact h5.symm
    subst hm5
    norm_num [rowNegRoe, cmpGE]
  · simp [paramsFalsyRoe]
  · rfl
  · rfl

/-- Three mutually exclusive, jointly exhaustive boolean predicates split the
length of a list among their filters. -/
theorem filter_length_partition (l : List Metric) (p q s : Metric → Bool)
    (h : ∀ a ∈ l, (p a).toNat + (q a).toNat + (s a).toNat = 1) :
    (l.filter p).length + (l.filter q).length + (l.filter s).length = l.length := by
  induction l with
  | nil => simp
  | cons a t ih =>
    have ha := h a (List.mem_cons_self a t)
    have iht := ih fun b hb => h b (List.mem_cons_of_mem a hb)
    cases hp : p a <;> cases hq : q a <;> cases hs : s a <;>
      rw [hp, hq, hs] at ha <;>
      simp only [Bool.toNat_true, Bool.toNat_false] at ha <;>
      first
      | omega
      | (simp only [List.filter_cons, hp, hq, hs, if_true, if_false, List.length_cons,
          Bool.false_eq_true, ite_false, ite_true]
         omega)

/-- Every required field of a row is exactly one of: valid, missing, or
invalid. -/
theorem metric_bucket (r : FRow) (m : Metric) :
    ((match getMetric r m with | some v => fieldInRange m v | none => false) : Bool).toNat
      + ((getMetric r m).isNone : Bool).toNat
      + ((match getMetric r m with | some v => !(fieldInRange m v) | none => false) : Bool).toNat
      = 1 := by
  cases hm : getMetric r m with
  | none => simp
  | some v => cases hv : fieldInRange m v <;> simp [hv]

/-- The valid count and the itemized missing and invalid field lists exhaust
the six required fields. -/
theorem count_missing_invalid (r : FRow) :
    countValidMetrics r + (missingFields r).length + (invalidFields r).length = 6 := by
  unfold countValidMetrics missingFields invalidFields
  have hpart := filter_length_partition requiredFields
    (fun m => match getMetric r m with | some v => fieldInRange m v | none => false)
    (fun m => (getMetric r m).isNone)
    (fun m => match getMetric r m with | some v => !(fieldInRange m v) | none => false)
    (fun m _ => metric_bucket r m)
  simpa [requiredFields] using hpart

/-- Claim C7: validate_fundamentals keeps a record in the valid output exactly
when at least 4 of the 6 required metrics are present and in their sane
range, and every record below that threshold appears in the issues report
with its itemized missing and invalid fields. -/
theorem validateFundamentals_spec (rows : List FRow) (r : FRow) (hr : r ∈ rows) :
    (setCount r ∈ (validateFundamentals rows).2.1 ↔ 4 ≤ countValidMetrics r) ∧
    (countValidMetrics r < 4 →
      (r.symbol, missingFields r, invalidFields r) ∈ (validateFundamentals rows).2.2) := by
  have hval : (validateFundamentals rows).2.1
      = (rows.map setCount).filter fun x => decide (4 ≤ x.valid_metric_count.getD 0) := rfl
  have hiss : (validateFundamentals rows).2.2 = issuesByStock rows := rfl
  constructor
  · rw [hval]
    rw [List.mem_filter]
    constructor
    · rintro ⟨hmem, hpred⟩
      simpa [setCount] using hpred
    · intro h4
      exact ⟨List.mem_map_of_mem _ hr, by simpa [setCount] using h4⟩
  · intro h4
    rw [hiss]
    unfold issuesByStock
    apply List.mem_filterMap.mpr
    refine ⟨r, hr, ?_⟩
    have hne : ¬(missingFields r = [] ∧ invalidFields r = []) := by
      rintro ⟨hm, hi⟩
      have hc := count_missing_invalid r
      rw [hm, hi] at hc
      simp only [List.length_nil, Nat.add_zero] at hc
      omega
    rw [if_neg hne]

/-- Claim C7 witness: the all-missing row has 0 valid metrics, is dropped, and
appears in the issues report with all six fields itemized as missing. -/
theorem validateFundamentals_spec_witness :
    (rowAllMissing.symbol, missingFields rowAllMissing, invalidFields rowAllMissing)
      ∈ (validateFundamentals [rowAllMissing]).2.2 :=
  (validateFundamentals_spec [rowAllMissing] rowAllMissing (by simp)).2 (by decide)

/-- Claim C8 counterexample: validate_fundamentals is not pure over its input:
it writes the valid_metric_count column into the table of the caller, so the input
argument differs after the call. -/
theorem validateFundamentals_mutates_cex :
    (validateFundamentals [rowAllMissing]).1 ≠ [rowAllMissing] := by decide

/-- Claim C8 amended: the only mutation validate_fundamentals performs on its
input is the valid_metric_count column write; dropping that column, the rows
of the post-call input state coincide with the original rows. -/
theorem validateFundamentals_pure_up_to_count (rows : List FRow) :
    ((validateFundamentals rows).1).map eraseCount = rows.map eraseCount := by
  show ((rows.map setCount).map eraseCount) = rows.map eraseCount
  induction rows with
  | nil => rfl
  | cons a t ih =>
    have hh : eraseCount (setCount a) = eraseCount a := rfl
    simp only [List.map_cons, hh]
    rw [ih]

/-- The roe tier ladder is monotone in the metric value. -/
theorem scoreMetric_roe_mono {v w : ℚ} (h : v ≤ w) :
    scoreMetric .roe v ≤ scoreMetric .roe w := by
  show (if qexcellent .roe ≤ v then (1 : ℚ)
      else if qgood .roe ≤ v then 0.75
      else if qacceptable .roe ≤ v then 0.50
      else if qpoor .roe ≤ v then 0.25
      else 0)
    ≤ (if qexcellent .roe ≤ w then (1 : ℚ)
      else if qgood .roe ≤ w then 0.75
      else if qacceptable .roe ≤ w then 0.50
      else if qpoor .roe ≤ w then 0.25
      else 0)
  simp only [qexcellent, qgood, qacceptable, qpoor]
  split_ifs <;> linarith

/-- The debt_equity tier ladder is antitone in the metric value. -/
theorem scoreMetric_de_anti {v w : ℚ} (h : v ≤ w) :
    scoreMetric .debt_equity w ≤ scoreMetric .debt_equity v := by
  show (if w ≤ qexcellent .debt_equity then (1 : ℚ)
      else if w ≤ qgood .debt_equity then 0.75
      else if w ≤ qacceptable .debt_equity then 0.50
      else if w ≤ qpoor .debt_equity then 0.25
      else 0)
    ≤ (if v ≤ qexcellent .debt_equity then (1 : ℚ)
      else if v ≤ qgood .debt_equity then 0.75
      else if v ≤ qacceptable .debt_equity then 0.50
      else if v ≤ qpoor .debt_equity then 0.25
      else 0)
  simp only [qexcellent, qgood, qacceptable, qpoor]
  split_ifs <;> linarith

/-- Claim C9: the quality score is monotone non-decreasing in a present roe
and non-increasing in a present debt_equity, all other columns held fixed. -/
theorem calcQualityScore_monotone (r : FRow) (v w : ℚ) (h : v ≤ w) :
    calcQualityScore { r with roe := some v } ≤ calcQualityScore { r with roe := some w } ∧
    calcQualityScore { r with debt_equity := some w }
      ≤ calcQualityScore { r with debt_equity := some v } := by
  constructor
  · have hroe : qcontrib { r with roe := some v } .roe ≤ qcontrib { r with roe := some w } .roe := by
      show qweight .roe * scoreMetric .roe v ≤ qweight .roe * scoreMetric .roe w
      exact mul_le_mul_of_nonneg_left (scoreMetric_roe_mono h) (by norm_num [qweight])
    unfold calcQualityScore
    apply min_le_min _ le_rfl
    apply mul_le_mul_of_nonneg_right _ (by norm_num)
    exact add_le_add_right (add_le_add_right (add_le_add_right (add_le_add_right
      (add_le_add_right hroe _) _) _) _) _
  · have hde : qcontrib { r with debt_equity := some w } .debt_equity
        ≤ qcontrib { r with debt_equity := some v } .debt_equity := by
      show qweight .debt_equity * scoreMetric .debt_equity w
          ≤ qweight .debt_equity * scoreMetric .debt_equity v
      exact mul_le_mul_of_nonneg_left (scoreMetric_de_anti h) (by norm_num [qweight])
    unfold calcQualityScore
    apply min_le_min _ le_rfl
    apply mul_le_mul_of_nonneg_right _ (by norm_num)
    exact add_le_add_right (add_le_add_right (add_le_add_right (add_le_add_right
      (add_le_add_left hde _) _) _) _) _

/-- Claim C9 witness at the all-missing base row and roe values 1 and 2. -/
theorem calcQualityScore_monotone_witness :
    calcQualityScore { rowAllMissing with roe := some 1 }
      ≤ calcQualityScore { rowAllMissing with roe := some 2 } ∧
    calcQualityScore { rowAllMissing with debt_equity := some 2 }
      ≤ calcQualityScore { rowAllMissing with debt_equity := some 1 } :=
  calcQualityScore_monotone rowAllMissing 1 2 (by norm_num)
